import Mathlib

/-
A verification development for `utils/data-validator/data-validator.py`:
a shallow embedding of the script's field data model, its Python `==`
dispatch (including reflected comparison and the exceptions that attribute
access on the wrong operand kind raises), its JSON-to-field decoder and its
two-stream comparison loop, together with theorems checking the published
behavioural description against this embedding.
-/

set_option maxHeartbeats 1000000

namespace DataValidator

/-- Kinds of Python exception that the script can raise while comparing or
decoding (attribute access on an object without the attribute, missing
dictionary key, wrong operand type for an operation, malformed `int(s, 16)`
input, and reading a local variable that was never assigned). -/
inductive PyErr where
  | attributeError
  | keyError
  | typeError
  | valueError
  | unboundLocalError
deriving DecidableEq

/-- Python runtime values manipulated by the script: the raw values a JSON
reader produces (`vNone` … `vDict`; a Python `dict` is modelled as its
insertion-ordered entry list with unique keys, and a finite `float` by its
exact rational value), the seven `Field` subclasses, and the `Event` and
`PacketInfo` record classes.  Each object is identified with the values of
its attributes, matching the source where every class is an immutable
constructor-plus-properties shell. -/
inductive PyObj where
  | vNone
  | vBool (b : Bool)
  | vInt (n : Int)
  | vFloat (q : ℚ)
  | vStr (s : String)
  | vList (xs : List PyObj)
  | vDict (entries : List (String × PyObj))
  | ignoreField
  | integerField (value : PyObj)
  | floatField (value : PyObj)
  | stringField (value : PyObj)
  | enumField (label : PyObj)
  | arrayField (elements : PyObj)
  | structField (fields : PyObj)
  | event (header streamContext context payload : PyObj)
  | packetInfo (header context : PyObj)

namespace PyObj

/-- Python `d[k]` / `k in d` support: first (equivalently, only) binding of
`k` in an insertion-ordered dictionary. -/
def dictGet : List (String × PyObj) → String → Option PyObj
  | [], _ => Option.none
  | (k', v') :: rest, k => if k' = k then some v' else dictGet rest k

/-- Python `d[k] = v`: replace the existing binding in place, else append. -/
def dictSet : List (String × PyObj) → String → PyObj → List (String × PyObj)
  | [], k, v => [(k, v)]
  | (k', v') :: rest, k, v =>
    if k' = k then (k, v) :: rest else (k', v') :: dictSet rest k v

/-- Attribute access `x.value`, defined exactly on the three
`SingleValueField` subclasses. -/
def getValue : PyObj → Option PyObj
  | integerField v => some v
  | floatField v => some v
  | stringField v => some v
  | _ => Option.none

/-- Attribute access `x.label`, defined exactly on `EnumField`. -/
def getLabel : PyObj → Option PyObj
  | enumField l => some l
  | _ => Option.none

/-- Attribute access `x.header`, defined on `Event` and `PacketInfo`. -/
def getHeader : PyObj → Option PyObj
  | event h _ _ _ => some h
  | packetInfo h _ => some h
  | _ => Option.none

/-- Attribute access `x.stream_context`, defined only on `Event`. -/
def getStreamContext : PyObj → Option PyObj
  | event _ sc _ _ => some sc
  | _ => Option.none

/-- Attribute access `x.context`, defined on `Event` and `PacketInfo`. -/
def getContext : PyObj → Option PyObj
  | event _ _ c _ => some c
  | packetInfo _ c => some c
  | _ => Option.none

/-- Attribute access `x.payload`, defined only on `Event`. -/
def getPayload : PyObj → Option PyObj
  | event _ _ _ p => some p
  | _ => Option.none

/-- Numeric view used by Python `==` across `bool`, `int` and `float`
(`True == 1`, `1 == 1.0`): the exact rational value of a numeric object. -/
def toRat? : PyObj → Option ℚ
  | vBool b => some (if b then 1 else 0)
  | vInt n => some (n : ℚ)
  | vFloat q => some q
  | _ => Option.none

/-- An object is an instance of (a subclass of) `Field`. -/
def isFieldObj : PyObj → Bool
  | ignoreField => true
  | integerField _ => true
  | floatField _ => true
  | stringField _ => true
  | enumField _ => true
  | arrayField _ => true
  | structField _ => true
  | _ => false

theorem dictGet_sizeOf_lt {ys : List (String × PyObj)} {k : String} {v : PyObj}
    (h : dictGet ys k = some v) : sizeOf v < sizeOf ys := by
  induction ys with
  | nil => exact Option.noConfusion h
  | cons p rest ih =>
    obtain ⟨k', v'⟩ := p
    rw [dictGet] at h
    by_cases hk : k' = k
    · rw [if_pos hk] at h
      obtain rfl := Option.some.inj h
      simp only [List.cons.sizeOf_spec, Prod.mk.sizeOf_spec]
      omega
    · rw [if_neg hk] at h
      have := ih h
      simp only [List.cons.sizeOf_spec]
      omega

theorem getValue_sizeOf_lt {b x : PyObj} (h : getValue b = some x) :
    sizeOf x < sizeOf b := by
  cases b
  case integerField v =>
    obtain rfl := Option.some.inj h; simp only [integerField.sizeOf_spec]; omega
  case floatField v =>
    obtain rfl := Option.some.inj h; simp only [floatField.sizeOf_spec]; omega
  case stringField v =>
    obtain rfl := Option.some.inj h; simp only [stringField.sizeOf_spec]; omega
  all_goals exact Option.noConfusion h

theorem getLabel_sizeOf_lt {b x : PyObj} (h : getLabel b = some x) :
    sizeOf x < sizeOf b := by
  cases b
  case enumField l =>
    obtain rfl := Option.some.inj h; simp only [enumField.sizeOf_spec]; omega
  all_goals exact Option.noConfusion h

theorem getHeader_sizeOf_lt {b x : PyObj} (h : getHeader b = some x) :
    sizeOf x < sizeOf b := by
  cases b
  case event h1 h2 h3 h4 =>
    obtain rfl := Option.some.inj h; simp only [event.sizeOf_spec]; omega
  case packetInfo h1 h2 =>
    obtain rfl := Option.some.inj h; simp only [packetInfo.sizeOf_spec]; omega
  all_goals exact Option.noConfusion h

theorem getStreamContext_sizeOf_lt {b x : PyObj} (h : getStreamContext b = some x) :
    sizeOf x < sizeOf b := by
  cases b
  case event h1 h2 h3 h4 =>
    obtain rfl := Option.some.inj h; simp only [event.sizeOf_spec]; omega
  all_goals exact Option.noConfusion h

theorem getContext_sizeOf_lt {b x : PyObj} (h : getContext b = some x) :
    sizeOf x < sizeOf b := by
  cases b
  case event h1 h2 h3 h4 =>
    obtain rfl := Option.some.inj h; simp only [event.sizeOf_spec]; omega
  case packetInfo h1 h2 =>
    obtain rfl := Option.some.inj h; simp only [packetInfo.sizeOf_spec]; omega
  all_goals exact Option.noConfusion h

theorem getPayload_sizeOf_lt {b x : PyObj} (h : getPayload b = some x) :
    sizeOf x < sizeOf b := by
  cases b
  case event h1 h2 h3 h4 =>
    obtain rfl := Option.some.inj h; simp only [event.sizeOf_spec]; omega
  all_goals exact Option.noConfusion h

end PyObj

open PyObj

mutual

/-- Python `a == b` as the script runs it.  `Field.__eq__` first answers
`True` when the right operand is an `IgnoreField` and otherwise calls the
per-variant `_eq`, whose attribute accesses (`other.value`, `other.label`,
`other.elements`, `other.fields`) raise `AttributeError` on an operand of
another kind; `IgnoreField._eq` is constantly `True`.  A raw left operand
returns `NotImplemented`, so Python retries the reflected
`type(b).__eq__(b, a)` and falls back to identity (`False` for distinct raw
values of different types).  `Event.__eq__` sums the four field comparisons
and `PacketInfo.__eq__` is a short-circuiting `and`; both read attributes of
the right operand and hence raise on operands that lack them.  Errors are
surfaced in the `Except` result.  Two corners are modelled as `TypeError`:
`zip` over a non-list `elements` attribute (every non-list this program can
store there is a Field object, which is not iterable) and `len` of a
non-dict `fields` attribute (no `StructField` this program builds has
one). -/
def pyEq (a b : PyObj) : Except PyErr Bool :=
  match a, b with
  | ignoreField, _ => .ok true
  | integerField v, b =>
    match b with
    | ignoreField => .ok true
    | integerField w => pyEq v w
    | floatField w => pyEq v w
    | stringField w => pyEq v w
    | _ => .error .attributeError
  | floatField v, b =>
    match b with
    | ignoreField => .ok true
    | integerField w => pyEq v w
    | floatField w => pyEq v w
    | stringField w => pyEq v w
    | _ => .error .attributeError
  | stringField v, b =>
    match b with
    | ignoreField => .ok true
    | integerField w => pyEq v w
    | floatField w => pyEq v w
    | stringField w => pyEq v w
    | _ => .error .attributeError
  | enumField l, b =>
    match b with
    | ignoreField => .ok true
    | enumField m => pyEq l m
    | _ => .error .attributeError
  | arrayField e, b =>
    match b with
    | ignoreField => .ok true
    | arrayField e2 =>
      match e, e2 with
      | vList xs, vList ys => arrCmp xs ys
      | _, _ => .error .typeError
    | _ => .error .attributeError
  | structField f, b =>
    match b with
    | ignoreField => .ok true
    | structField g =>
      match f, g with
      | vDict xs, vDict ys =>
        if xs.length = ys.length then structCmp xs ys else .ok false
      | _, _ => .error .typeError
    | _ => .error .attributeError
  | event h sc c p, b =>
    match b with
    | event bh bsc bc bp =>
      match pyEq h bh with
      | .error e => .error e
      | .ok r1 =>
        match pyEq sc bsc with
        | .error e => .error e
        | .ok r2 =>
          match pyEq c bc with
          | .error e => .error e
          | .ok r3 =>
            match pyEq p bp with
            | .error e => .error e
            | .ok r4 => .ok (r1 && r2 && r3 && r4)
    | packetInfo bh _ =>
      match pyEq h bh with
      | .error e => .error e
      | .ok _ => .error .attributeError
    | _ => .error .attributeError
  | packetInfo h c, b =>
    match b with
    | packetInfo bh bc =>
      match pyEq h bh with
      | .error e => .error e
      | .ok false => .ok false
      | .ok true => pyEq c bc
    | event bh _ bc _ =>
      match pyEq h bh with
      | .error e => .error e
      | .ok false => .ok false
      | .ok true => pyEq c bc
    | _ => .error .attributeError
  | _, ignoreField => .ok true
  | _, integerField _ => .error .attributeError
  | _, floatField _ => .error .attributeError
  | _, stringField _ => .error .attributeError
  | _, enumField _ => .error .attributeError
  | _, arrayField _ => .error .attributeError
  | _, structField g =>
    match g with
    | vDict _ => .error .attributeError
    | _ => .error .typeError
  | _, event _ _ _ _ => .error .attributeError
  | _, packetInfo _ _ => .error .attributeError
  | vNone, vNone => .ok true
  | vStr s, vStr t => .ok (decide (s = t))
  | vList xs, vList ys =>
    if xs.length = ys.length then pyListEq xs ys else .ok false
  | vDict xs, vDict ys =>
    if xs.length = ys.length then pyDictEq xs ys else .ok false
  | a, b =>
    match toRat? a, toRat? b with
    | some x, some y => .ok (decide (x = y))
    | _, _ => .ok false
termination_by sizeOf a + sizeOf b
decreasing_by
  all_goals simp_wf
  all_goals omega

/-- The loop of `ArraySequenceField._eq`: walk `zip(self.elements,
other.elements)` (which stops at the shorter list), return `False` at the
first unequal pair, `True` if the walk completes. -/
def arrCmp : List PyObj → List PyObj → Except PyErr Bool
  | [], _ => .ok true
  | _ :: _, [] => .ok true
  | s :: ss, o :: os =>
    match pyEq s o with
    | .error e => .error e
    | .ok false => .ok false
    | .ok true => arrCmp ss os
termination_by xs ys => sizeOf xs + sizeOf ys
decreasing_by
  all_goals simp_wf
  all_goals omega

/-- The loop of `StructField._eq` after its length guard: for each own entry
in insertion order, `False` when the name is absent from the other dict or
when `o_value != s_value` (note the operand order), else continue. -/
def structCmp : List (String × PyObj) → List (String × PyObj) → Except PyErr Bool
  | [], _ => .ok true
  | (k, sv) :: rest, ys =>
    match hov : dictGet ys k with
    | Option.none => .ok false
    | some ov =>
      match pyEq ov sv with
      | .error e => .error e
      | .ok false => .ok false
      | .ok true => structCmp rest ys
termination_by xs ys => sizeOf xs + sizeOf ys
decreasing_by
  all_goals simp_wf
  all_goals first
    | omega
    | (have hlt := dictGet_sizeOf_lt hov
       omega)

/-- Elementwise part of Python `list.__eq__` (lengths already equal). -/
def pyListEq : List PyObj → List PyObj → Except PyErr Bool
  | [], _ => .ok true
  | _ :: _, [] => .ok true
  | x :: xs, y :: ys =>
    match pyEq x y with
    | .error e => .error e
    | .ok false => .ok false
    | .ok true => pyListEq xs ys
termination_by xs ys => sizeOf xs + sizeOf ys
decreasing_by
  all_goals simp_wf
  all_goals omega

/-- Per-key part of Python `dict.__eq__` (lengths already equal): each own
key must be present in the other dict with `==`-equal value. -/
def pyDictEq : List (String × PyObj) → List (String × PyObj) → Except PyErr Bool
  | [], _ => .ok true
  | (k, v) :: rest, ys =>
    match hw : dictGet ys k with
    | Option.none => .ok false
    | some w =>
      match pyEq v w with
      | .error e => .error e
      | .ok false => .ok false
      | .ok true => pyDictEq rest ys
termination_by xs ys => sizeOf xs + sizeOf ys
decreasing_by
  all_goals simp_wf
  all_goals first
    | omega
    | (have hlt := dictGet_sizeOf_lt hw
       omega)

end

/-- Python `a != b`: the default `__ne__` inverts `__eq__` (none of the
script's classes overrides `__ne__`), propagating any exception. -/
def pyNe (a b : PyObj) : Except PyErr Bool :=
  match pyEq a b with
  | .error e => .error e
  | .ok t => .ok (!t)

/-- Python `int(s, 16)` on the hex strings the upstream producer emits:
optional sign, optional `0x`/`0X` prefix, then at least one hexadecimal
digit, `ValueError` otherwise.  (Embedded underscores and surrounding
whitespace, which CPython also tolerates, are not modelled.) -/
def hexDigitVal? (c : Char) : Option Nat :=
  if '0' ≤ c ∧ c ≤ '9' then some (c.toNat - '0'.toNat)
  else if 'a' ≤ c ∧ c ≤ 'f' then some (c.toNat - 'a'.toNat + 10)
  else if 'A' ≤ c ∧ c ≤ 'F' then some (c.toNat - 'A'.toNat + 10)
  else Option.none

/-- Accumulate the value of a hexadecimal digit string. -/
def hexDigitsVal? (acc : Nat) : List Char → Option Nat
  | [] => some acc
  | c :: rest =>
    match hexDigitVal? c with
    | some d => hexDigitsVal? (acc * 16 + d) rest
    | Option.none => Option.none

/-- Parse `int(s, 16)`, see `hexDigitVal?`. -/
def hexParse (s : String) : Except PyErr Int :=
  let step1 : Bool × List Char :=
    match s.data with
    | '-' :: rest => (true, rest)
    | '+' :: rest => (false, rest)
    | cs => (false, cs)
  let step2 : List Char :=
    match step1.2 with
    | '0' :: 'x' :: rest => rest
    | '0' :: 'X' :: rest => rest
    | cs => cs
  match step2 with
  | [] => .error .valueError
  | cs =>
    match hexDigitsVal? 0 cs with
    | some n => .ok (if step1.1 then -(n : Int) else (n : Int))
    | Option.none => .error .valueError

mutual

/-- `_json_field_to_object`: `None` decodes to the wildcard; a dict
dispatches on its `"type"` key through `_json_field_to_object_cbs` (a
missing key or an unknown/hashable-non-string tag raises `KeyError`, an
unhashable tag raises `TypeError`); any other value dispatches on its
Python type through `_json_value_to_object_cbs` (absent types such as
`bool` raise `KeyError`).  The per-tag decoders read `"value"`, `"label"`,
`"elements"` or `"fields"` (missing key: `KeyError`).  An `"integer"` tag
parses a textual value as base 16 and wraps any other value unchanged; the
`"array"`/`"sequence"` decoder reassigns its accumulator instead of
appending (`element_objects = _json_field_to_object(elem)`), so it returns
the decoded last element, not the list of all of them; the `"struct"`
decoder copies `field["fields"].items()` one dict assignment at a time
(`.items()` on a non-dict raises `AttributeError`; iterating a non-list
`"elements"` value is modelled as `TypeError`, the behaviour for every
non-iterable). -/
def jsonFieldToObject (j : PyObj) : Except PyErr PyObj :=
  match j with
  | vNone => .ok ignoreField
  | vDict xs =>
    match dictGet xs "type" with
    | Option.none => .error .keyError
    | some ty =>
      match ty with
      | vStr tag =>
        if tag = "integer" ∨ tag = "int" then
          match dictGet xs "value" with
          | Option.none => .error .keyError
          | some (vStr s) =>
            match hexParse s with
            | .error e => .error e
            | .ok n => .ok (integerField (vInt n))
          | some v => .ok (integerField v)
        else if tag = "float" ∨ tag = "floating_point" then
          match dictGet xs "value" with
          | Option.none => .error .keyError
          | some v => .ok (floatField v)
        else if tag = "string" then
          match dictGet xs "value" with
          | Option.none => .error .keyError
          | some v => .ok (stringField v)
        else if tag = "enum" then
          match dictGet xs "label" with
          | Option.none => .error .keyError
          | some v => .ok (enumField v)
        else if tag = "array" ∨ tag = "sequence" then
          match hget : dictGet xs "elements" with
          | Option.none => .error .keyError
          | some (vList es) =>
            match decodeKeepLast (vList []) es with
            | .error e => .error e
            | .ok o => .ok (arrayField o)
          | some _ => .error .typeError
        else if tag = "struct" then
          match hget : dictGet xs "fields" with
          | Option.none => .error .keyError
          | some (vDict fs) =>
            match decodeStructItems [] fs with
            | .error e => .error e
            | .ok out => .ok (structField (vDict out))
          | some _ => .error .attributeError
        else .error .keyError
      | vList _ => .error .typeError
      | vDict _ => .error .typeError
      | _ => .error .keyError
  | vInt n => .ok (integerField (vInt n))
  | vFloat q => .ok (floatField (vFloat q))
  | vStr s => .ok (stringField (vStr s))
  | vList es =>
    match decodeCollect es with
    | .error e => .error e
    | .ok os => .ok (arrayField (vList os))
  | _ => .error .keyError
termination_by sizeOf j
decreasing_by
  all_goals simp_wf
  all_goals first
    | omega
    | (have hlt := dictGet_sizeOf_lt hget
       simp only [PyObj.vList.sizeOf_spec, PyObj.vDict.sizeOf_spec] at hlt
       omega)

/-- The loop of `_json_array_sequence_field_to_object`: the accumulator
starts as the empty list object and is overwritten (not appended to) by
each decoded element. -/
def decodeKeepLast (acc : PyObj) : List PyObj → Except PyErr PyObj
  | [] => .ok acc
  | e :: rest =>
    match jsonFieldToObject e with
    | .error er => .error er
    | .ok o => decodeKeepLast o rest
termination_by l => sizeOf l
decreasing_by
  all_goals simp_wf
  all_goals omega

/-- The loop of `_json_array_to_object`: decode each element and append. -/
def decodeCollect : List PyObj → Except PyErr (List PyObj)
  | [] => .ok []
  | e :: rest =>
    match jsonFieldToObject e with
    | .error er => .error er
    | .ok o =>
      match decodeCollect rest with
      | .error er => .error er
      | .ok os => .ok (o :: os)
termination_by l => sizeOf l
decreasing_by
  all_goals simp_wf
  all_goals omega

/-- The loop of `_json_struct_field_to_object`: `fields[key] =
_json_field_to_object(value)` over `field["fields"].items()`. -/
def decodeStructItems (acc : List (String × PyObj)) :
    List (String × PyObj) → Except PyErr (List (String × PyObj))
  | [] => .ok acc
  | (k, v) :: rest =>
    match jsonFieldToObject v with
    | .error er => .error er
    | .ok o => decodeStructItems (dictSet acc k o) rest
termination_by l => sizeOf l
decreasing_by
  all_goals simp_wf
  all_goals omega

end

/-- `_json_thing_to_object`: an entry is inspected for a `"packet-header"`
key only.  When present, `packet_header` is decoded and `packet_context` is
decoded only when its key is present, yet `PacketInfo(packet_header,
packet_context)` is built unconditionally, so a missing `"packet-context"`
key reads the never-assigned local (`UnboundLocalError`).  When
`"packet-header"` is absent — even if `"packet-context"` is present — the
entry becomes an `Event` whose four fields decode from the optional keys
`"header"`, `"stream-context"`, `"context"`, `"payload"`, each `None` when
its key is absent.  (The entries this script reads are JSON objects; `'x'
in entry` on a non-container entry raises `TypeError`.) -/
def jsonThingToObject (j : PyObj) : Except PyErr PyObj :=
  match j with
  | vDict xs =>
    match dictGet xs "packet-header" with
    | some phj =>
      match jsonFieldToObject phj with
      | .error e => .error e
      | .ok ph =>
        match dictGet xs "packet-context" with
        | some pcj =>
          match jsonFieldToObject pcj with
          | .error e => .error e
          | .ok pc => .ok (packetInfo ph pc)
        | Option.none => .error .unboundLocalError
    | Option.none =>
      match (match dictGet xs "header" with
             | Option.none => .ok vNone
             | some v => jsonFieldToObject v : Except PyErr PyObj) with
      | .error e => .error e
      | .ok h =>
        match (match dictGet xs "stream-context" with
               | Option.none => .ok vNone
               | some v => jsonFieldToObject v : Except PyErr PyObj) with
        | .error e => .error e
        | .ok sc =>
          match (match dictGet xs "context" with
                 | Option.none => .ok vNone
                 | some v => jsonFieldToObject v : Except PyErr PyObj) with
          | .error e => .error e
          | .ok c =>
            match (match dictGet xs "payload" with
                   | Option.none => .ok vNone
                   | some v => jsonFieldToObject v : Except PyErr PyObj) with
            | .error e => .error e
            | .ok p => .ok (event h sc c p)
  | _ => .error .typeError

/-- `type(thing) is PacketInfo`. -/
def isPacketInfoObj : PyObj → Bool
  | packetInfo _ _ => true
  | _ => false

/-- One of the two inner `while` loops of `_compare_json_data`: decode
entries in order, remembering each `PacketInfo` as the side's current
packet info, until the first `Event` (returned with the rest of the list)
or the end of the side's input. -/
def findNextEvent (cur : PyObj) : List PyObj → Except PyErr (PyObj × Option PyObj × List PyObj)
  | [] => .ok (cur, Option.none, [])
  | j :: rest =>
    match jsonThingToObject j with
    | .error e => .error e
    | .ok thing =>
      if isPacketInfoObj thing then findNextEvent thing rest
      else .ok (cur, some thing, rest)

theorem findNextEvent_consumes {cur c ev : PyObj} {l rest : List PyObj}
    (h : findNextEvent cur l = .ok (c, some ev, rest)) :
    rest.length < l.length := by
  induction l generalizing cur with
  | nil =>
    rw [findNextEvent] at h
    simp at h
  | cons j tl ih =>
    rw [findNextEvent] at h
    split at h
    · exact Except.noConfusion h
    · split at h
      · have := ih h
        simp only [List.length_cons]
        omega
      · obtain ⟨-, -, rfl⟩ := by simpa using h
        simp only [List.length_cons]
        omega

/-- The outer `while True` loop of `_compare_json_data`, iterated with an
explicit budget: fetch the next event on each side (updating that side's
current packet info along the way); the verdict is `False` when exactly one
side is exhausted, `True` when both are; otherwise it is `False` when the
current packet infos differ or the events differ, else the loop continues.
An iteration that loops again has found an event on each side and so, by
`findNextEvent_consumes`, has consumed at least one entry from each list;
hence the budget `compareJsonData` passes is never exhausted and the
`fuel = 0` branch is unreachable. -/
def compareLoop (fuel : Nat) (curE curO : PyObj) (es os : List PyObj) :
    Except PyErr Bool :=
  match fuel with
  | 0 => .ok false
  | fuel + 1 =>
    match findNextEvent curE es with
    | .error e => .error e
    | .ok (curE2, evE, es2) =>
      match findNextEvent curO os with
      | .error e => .error e
      | .ok (curO2, evO, os2) =>
        match evE, evO with
        | Option.none, Option.some _ => .ok false
        | Option.some _, Option.none => .ok false
        | Option.none, Option.none => .ok true
        | Option.some eE, Option.some eO =>
          match pyNe curE2 curO2 with
          | .error e => .error e
          | .ok true => .ok false
          | .ok false =>
            match pyNe eE eO with
            | .error e => .error e
            | .ok true => .ok false
            | .ok false => compareLoop fuel curE2 curO2 es2 os2

/-- `_compare_json_data`: both current packet infos start as `None`, and
the loop runs with a budget that `findNextEvent_consumes` shows it can
never exhaust. -/
def compareJsonData (es os : List PyObj) : Except PyErr Bool :=
  compareLoop (es.length + os.length + 1) vNone vNone es os

mutual

/-- A Python-representable object: every dictionary in it (a real `dict`)
has unique keys.  Raw values decoded from JSON and every object this
script builds satisfy this. -/
def wfObj : PyObj → Bool
  | vNone => true
  | vBool _ => true
  | vInt _ => true
  | vFloat _ => true
  | vStr _ => true
  | vList xs => wfObjList xs
  | vDict xs => decide ((xs.map Prod.fst).Nodup) && wfEntryList xs
  | ignoreField => true
  | integerField v => wfObj v
  | floatField v => wfObj v
  | stringField v => wfObj v
  | enumField v => wfObj v
  | arrayField v => wfObj v
  | structField v =>
    (match v with
     | vDict _ => true
     | _ => false) && wfObj v
  | event h sc c p => wfObj h && wfObj sc && wfObj c && wfObj p
  | packetInfo h c => wfObj h && wfObj c
termination_by x => sizeOf x
decreasing_by
  all_goals simp_wf
  all_goals omega

/-- All members of a list are well formed. -/
def wfObjList : List PyObj → Bool
  | [] => true
  | x :: xs => wfObj x && wfObjList xs
termination_by l => sizeOf l
decreasing_by
  all_goals simp_wf
  all_goals omega

/-- All values of a dictionary entry list are well formed. -/
def wfEntryList : List (String × PyObj) → Bool
  | [] => true
  | (_, v) :: rest => wfObj v && wfEntryList rest
termination_by l => sizeOf l
decreasing_by
  all_goals simp_wf
  all_goals omega

end

/-- A lookup that succeeds returns a binding of the dictionary. -/
theorem dictGet_mem {ys : List (String × PyObj)} {k : String} {v : PyObj}
    (h : dictGet ys k = some v) : (k, v) ∈ ys := by
  induction ys with
  | nil => exact Option.noConfusion h
  | cons p rest ih =>
    obtain ⟨k2, v2⟩ := p
    rw [dictGet] at h
    by_cases hk : k2 = k
    · subst hk
      rw [if_pos rfl] at h
      obtain rfl := Option.some.inj h
      exact List.mem_cons_self _ _
    · rw [if_neg hk] at h
      exact List.mem_cons_of_mem _ (ih h)

/-- A lookup fails exactly when the key is not among the dictionary keys. -/
theorem dictGet_eq_none_iff {ys : List (String × PyObj)} {k : String} :
    dictGet ys k = Option.none ↔ k ∉ ys.map Prod.fst := by
  induction ys with
  | nil => simp [dictGet]
  | cons p rest ih =>
    obtain ⟨k2, v2⟩ := p
    rw [dictGet]
    by_cases hk : k2 = k
    · subst hk; simp
    · simp [hk, ih, Ne.symm hk]

/-- With unique keys, membership determines the lookup result. -/
theorem dictGet_of_mem_nodup {ys : List (String × PyObj)} {k : String} {v : PyObj}
    (hnd : (ys.map Prod.fst).Nodup) (h : (k, v) ∈ ys) : dictGet ys k = some v := by
  induction ys with
  | nil => simp at h
  | cons p rest ih =>
    obtain ⟨k2, v2⟩ := p
    simp only [List.map_cons, List.nodup_cons] at hnd
    rcases List.mem_cons.mp h with heq | hmem
    · cases heq
      rw [dictGet, if_pos rfl]
    · have hk : k2 ≠ k := by
        rintro rfl
        exact hnd.1 (List.mem_map_of_mem Prod.fst hmem)
      rw [dictGet, if_neg hk]
      exact ih hnd.2 hmem

theorem sizeOf_lt_of_mem_objList {x : PyObj} {xs : List PyObj} (h : x ∈ xs) :
    sizeOf x < sizeOf xs := by
  induction xs with
  | nil => simp at h
  | cons a l ih =>
    rcases List.mem_cons.mp h with rfl | hmem
    · simp only [List.cons.sizeOf_spec]; omega
    · have := ih hmem; simp only [List.cons.sizeOf_spec]; omega

theorem sizeOf_snd_lt_of_mem_entries {p : String × PyObj}
    {xs : List (String × PyObj)} (h : p ∈ xs) : sizeOf p.2 < sizeOf xs := by
  induction xs with
  | nil => simp at h
  | cons a l ih =>
    rcases List.mem_cons.mp h with rfl | hmem
    · obtain ⟨k, v⟩ := p
      simp only [List.cons.sizeOf_spec, Prod.mk.sizeOf_spec]
      omega
    · have := ih hmem; simp only [List.cons.sizeOf_spec]; omega

theorem wfObjList_iff {xs : List PyObj} :
    wfObjList xs = true ↔ ∀ x ∈ xs, wfObj x = true := by
  induction xs with
  | nil => simp [wfObjList]
  | cons a l ih => rw [wfObjList]; simp [ih]

theorem wfEntryList_iff {xs : List (String × PyObj)} :
    wfEntryList xs = true ↔ ∀ p ∈ xs, wfObj p.2 = true := by
  induction xs with
  | nil => simp [wfEntryList]
  | cons a l ih =>
    obtain ⟨k, v⟩ := a
    rw [wfEntryList]
    simp [ih]

theorem wfObj_vDict_iff {xs : List (String × PyObj)} :
    wfObj (vDict xs) = true ↔
      ((xs.map Prod.fst).Nodup ∧ ∀ p ∈ xs, wfObj p.2 = true) := by
  rw [wfObj]
  simp [wfEntryList_iff]

theorem wfObj_vList_iff {xs : List PyObj} :
    wfObj (vList xs) = true ↔ ∀ x ∈ xs, wfObj x = true := by
  rw [wfObj]
  exact wfObjList_iff

/-- `structCmp` succeeds with `True` exactly when every own entry finds its
name in the other dict with an `o_value != s_value` comparison that returns
`False` (that is, `pyEq o_value s_value` returns `True`). -/
theorem structCmp_ok_true_iff (xs ys : List (String × PyObj)) :
    structCmp xs ys = .ok true ↔
      ∀ p ∈ xs, (dictGet ys p.1).map (fun w => pyEq w p.2) = some (.ok true) := by
  induction xs with
  | nil => simp [structCmp]
  | cons p rest ih =>
    obtain ⟨k, sv⟩ := p
    rw [structCmp]
    cases hov : dictGet ys k with
    | none => simp [hov]
    | some ov =>
      cases hc : pyEq ov sv with
      | error e => simp [hov, hc]
      | ok t =>
        cases t with
        | false => simp [hov, hc]
        | true => simp [hov, hc, ih]

/-- When `structCmp` returns `False`, some own entry is either missing from
the other dict or compares to `False`. -/
theorem structCmp_ok_false_exists {xs ys : List (String × PyObj)}
    (h : structCmp xs ys = .ok false) :
    ∃ p ∈ xs, dictGet ys p.1 = Option.none ∨
      ∃ w, dictGet ys p.1 = some w ∧ pyEq w p.2 = .ok false := by
  induction xs with
  | nil => rw [structCmp] at h; simp at h
  | cons p rest ih =>
    obtain ⟨k, sv⟩ := p
    rw [structCmp] at h
    split at h
    next hov => exact ⟨(k, sv), List.mem_cons_self _ _, Or.inl hov⟩
    next ov hov =>
      split at h
      next e hc => exact Except.noConfusion h
      next hc => exact ⟨(k, sv), List.mem_cons_self _ _, Or.inr ⟨ov, hov, hc⟩⟩
      next hc =>
        obtain ⟨q, hq, hcase⟩ := ih h
        exact ⟨q, List.mem_cons_of_mem _ hq, hcase⟩

/-- `pyDictEq` succeeds with `True` exactly when every own entry finds its
key in the other dict with an `==`-equal value. -/
theorem pyDictEq_ok_true_iff (xs ys : List (String × PyObj)) :
    pyDictEq xs ys = .ok true ↔
      ∀ p ∈ xs, (dictGet ys p.1).map (fun w => pyEq p.2 w) = some (.ok true) := by
  induction xs with
  | nil => simp [pyDictEq]
  | cons p rest ih =>
    obtain ⟨k, v⟩ := p
    rw [pyDictEq]
    cases hov : dictGet ys k with
    | none => simp [hov]
    | some w =>
      cases hc : pyEq v w with
      | error e => simp [hov, hc]
      | ok t =>
        cases t with
        | false => simp [hov, hc]
        | true => simp [hov, hc, ih]

/-- When `pyDictEq` returns `False`, some own entry is either missing from
the other dict or has an unequal value. -/
theorem pyDictEq_ok_false_exists {xs ys : List (String × PyObj)}
    (h : pyDictEq xs ys = .ok false) :
    ∃ p ∈ xs, dictGet ys p.1 = Option.none ∨
      ∃ w, dictGet ys p.1 = some w ∧ pyEq p.2 w = .ok false := by
  induction xs with
  | nil => rw [pyDictEq] at h; simp at h
  | cons p rest ih =>
    obtain ⟨k, v⟩ := p
    rw [pyDictEq] at h
    split at h
    next hov => exact ⟨(k, v), List.mem_cons_self _ _, Or.inl hov⟩
    next w hov =>
      split at h
      next e hc => exact Except.noConfusion h
      next hc => exact ⟨(k, v), List.mem_cons_self _ _, Or.inr ⟨w, hov, hc⟩⟩
      next hc =>
        obtain ⟨q, hq, hcase⟩ := ih h
        exact ⟨q, List.mem_cons_of_mem _ hq, hcase⟩

/-- `arrCmp` succeeds with `True` exactly when every aligned pair of the
two element lists compares equal. -/
theorem arrCmp_ok_true_iff (xs ys : List PyObj) :
    arrCmp xs ys = .ok true ↔ ∀ p ∈ xs.zip ys, pyEq p.1 p.2 = .ok true := by
  induction xs generalizing ys with
  | nil => simp [arrCmp]
  | cons x rest ih =>
    cases ys with
    | nil => simp [arrCmp]
    | cons y ysr =>
      rw [arrCmp]
      cases hc : pyEq x y with
      | error e => simp [hc]
      | ok t =>
        cases t with
        | false => simp [hc]
        | true => simp [hc, ih]

/-- C1: for every Field `f`, `equal(Ignore, f)` and `equal(f, Ignore)` are
both true, regardless of the variant or value of `f`: the wildcard test
fires before any type-specific comparison, so no inspection of the other
operand can make the result false. -/
theorem ignore_matches_everything (f : PyObj) (h : isFieldObj f = true) :
    pyEq ignoreField f = .ok true ∧ pyEq f ignoreField = .ok true := by
  cases f <;> simp_all [isFieldObj, pyEq]

/-- Witness for `ignore_matches_everything` at a concrete Integer field. -/
theorem ignore_matches_everything_witness :
    pyEq ignoreField (integerField (vInt 3)) = .ok true ∧
      pyEq (integerField (vInt 3)) ignoreField = .ok true :=
  ignore_matches_everything (integerField (vInt 3)) rfl

/-- C2 counterexample: an event whose header is absent (`None`) compares
equal to an event whose header is the wildcard `Ignore`, so a pair with an
absent field on one side can be equal without the other side being absent
too. -/
theorem event_none_matches_ignore :
    pyEq (event vNone vNone vNone vNone) (event ignoreField vNone vNone vNone) =
      .ok true := by
  simp [pyEq]

/-- C2 amended: in the four per-field comparisons of `Event.__eq__`, an
absent (`None`) field is equal to an absent field, and also to an `Ignore`
field on the other side; compared with any other Field it raises
`AttributeError` instead of yielding a boolean.  When all four comparisons
do return booleans, the events are equal exactly when all four are true. -/
theorem event_eq_fieldwise :
    (pyEq vNone vNone = .ok true) ∧
    (pyEq vNone ignoreField = .ok true ∧ pyEq ignoreField vNone = .ok true) ∧
    (∀ f, isFieldObj f = true → wfObj f = true → f ≠ ignoreField →
        pyEq vNone f = .error .attributeError ∧
        pyEq f vNone = .error .attributeError) ∧
    (∀ h1 sc1 c1 p1 h2 sc2 c2 p2 b1 b2 b3 b4,
        pyEq h1 h2 = .ok b1 → pyEq sc1 sc2 = .ok b2 → pyEq c1 c2 = .ok b3 →
        pyEq p1 p2 = .ok b4 →
        pyEq (event h1 sc1 c1 p1) (event h2 sc2 c2 p2) =
          .ok (b1 && b2 && b3 && b4)) := by
  refine ⟨by simp [pyEq], ⟨by simp [pyEq], by simp [pyEq]⟩, ?_, ?_⟩
  · intro f hf hwf hne
    cases f <;> simp_all [isFieldObj, pyEq, wfObj]
    case structField g => cases g <;> simp_all [pyEq, wfObj]
  · intro h1 sc1 c1 p1 h2 sc2 c2 p2 b1 b2 b3 b4 e1 e2 e3 e4
    rw [pyEq, e1, e2, e3, e4]

/-- Witness for `event_eq_fieldwise`: the absent-versus-Integer comparison
raises, and a concrete event pair with four boolean comparisons conjoins
them. -/
theorem event_eq_fieldwise_witness :
    (pyEq vNone (integerField (vInt 0)) = .error .attributeError ∧
     pyEq (integerField (vInt 0)) vNone = .error .attributeError) ∧
    pyEq (event ignoreField vNone vNone (integerField (vInt 1)))
         (event (stringField (vStr "s")) vNone vNone (integerField (vInt 2))) =
      .ok (true && true && true && false) := by
  constructor
  · exact event_eq_fieldwise.2.2.1 (integerField (vInt 0)) rfl (by simp [wfObj])
      (by intro hcon; exact PyObj.noConfusion hcon)
  · exact event_eq_fieldwise.2.2.2 _ _ _ _ _ _ _ _ _ _ _ _
      (by simp [pyEq]) (by simp [pyEq]) (by simp [pyEq]) (by simp [pyEq, toRat?])

/-- C3: the `"array"`/`"sequence"` decoder does not return the decoded
elements in order: its loop overwrites the accumulator
(`element_objects = _json_field_to_object(elem)` instead of `.append`), so
`{"type": "array", "elements": [1, 2]}` decodes to an Array field whose
`elements` attribute is the single decoded last element `Integer(2)`.  The
sibling decoder for bare JSON lists appends correctly, which the second
conjunct records for contrast. -/
theorem array_decoder_keeps_last_only :
    jsonFieldToObject
        (vDict [("type", vStr "array"), ("elements", vList [vInt 1, vInt 2])]) =
      .ok (arrayField (integerField (vInt 2))) ∧
    jsonFieldToObject (vList [vInt 1, vInt 2]) =
      .ok (arrayField (vList [integerField (vInt 1), integerField (vInt 2)])) := by
  constructor <;>
    simp [jsonFieldToObject, decodeKeepLast, decodeCollect, dictGet]

/-- C4: an entry with only a `"packet-context"` key is not classified as
packet info but as an all-absent Event, because only `"packet-header"` is
tested; an entry with only a `"packet-header"` key raises
`UnboundLocalError` (the local `packet_context` is never assigned) instead
of producing a PacketInfo with an absent context; an entry with both keys
decodes to the expected PacketInfo. -/
theorem classify_packet_entries :
    jsonThingToObject (vDict [("packet-context", vInt 5)]) =
      .ok (event vNone vNone vNone vNone) ∧
    jsonThingToObject (vDict [("packet-header", vInt 7)]) =
      .error .unboundLocalError ∧
    jsonThingToObject (vDict [("packet-header", vInt 7), ("packet-context", vInt 8)]) =
      .ok (packetInfo (integerField (vInt 7)) (integerField (vInt 8))) := by
  refine ⟨?_, ?_, ?_⟩ <;> simp [jsonThingToObject, jsonFieldToObject, dictGet]

/-- C6 counterexample: an Integer field and a Float field are different
non-Ignore variants, yet they compare equal when their numeric values
agree, because `SingleValueField._eq` falls through to Python numeric
equality (`1 == 1.0`). -/
theorem integer_eq_float_counterexample :
    pyEq (integerField (vInt 1)) (floatField (vFloat 1)) = .ok true := by
  simp [pyEq, toRat?]

/-- C6 amended: same-variant Integer, Float and String fields are equal
exactly when their values are exactly equal (no epsilon tolerance); across
the single-value variants the stored values are compared with Python `==`,
so Integer versus Float is numeric equality while Integer versus String is
false; a single-value field compared with an Enum or an Array (and
generally any variant whose `_eq` attribute access the other operand cannot
satisfy) raises `AttributeError` rather than returning false. -/
theorem single_value_eq_spec :
    (∀ n m : Int, pyEq (integerField (vInt n)) (integerField (vInt m)) =
        .ok (decide (n = m))) ∧
    (∀ q r : ℚ, pyEq (floatField (vFloat q)) (floatField (vFloat r)) =
        .ok (decide (q = r))) ∧
    (∀ s t : String, pyEq (stringField (vStr s)) (stringField (vStr t)) =
        .ok (decide (s = t))) ∧
    (∀ (n : Int) (q : ℚ), pyEq (integerField (vInt n)) (floatField (vFloat q)) =
        .ok (decide ((n : ℚ) = q))) ∧
    (∀ (n : Int) (s : String), pyEq (integerField (vInt n)) (stringField (vStr s)) =
        .ok false) ∧
    (∀ v l : PyObj, pyEq (integerField v) (enumField l) = .error .attributeError) ∧
    (∀ v e : PyObj, pyEq (stringField v) (arrayField e) = .error .attributeError) := by
  refine ⟨?_, ?_, ?_, ?_, ?_, ?_, ?_⟩ <;> intro u w <;>
    simp [pyEq, toRat?, Int.cast_inj]

/-- C10 counterexample: a struct whose `"fields"` object carries the same
name twice decodes without any error — there is no duplicate check and no
DecodeError anywhere in the script — and the later binding has silently
replaced the earlier one. -/
theorem struct_dup_name_decodes :
    jsonFieldToObject (vDict [("type", vStr "struct"),
        ("fields", vDict [("a", vInt 1), ("a", vInt 2)])]) =
      .ok (structField (vDict [("a", integerField (vInt 2))])) := by
  simp [jsonFieldToObject, decodeStructItems, dictGet, dictSet]

/-- C10 amended: for any duplicated field name, the struct decoder succeeds
and keeps only the decoding of the last occurrence (dict assignment
overwrites in place), rather than rejecting the duplicate. -/
theorem struct_dup_name_last_wins (k : String) (v w r1 r2 : PyObj)
    (h1 : jsonFieldToObject v = .ok r1) (h2 : jsonFieldToObject w = .ok r2) :
    jsonFieldToObject (vDict [("type", vStr "struct"),
        ("fields", vDict [(k, v), (k, w)])]) =
      .ok (structField (vDict [(k, r2)])) := by
  simp [jsonFieldToObject, decodeStructItems, dictGet, dictSet, h1, h2]

/-- Witness for `struct_dup_name_last_wins` with a string first occurrence
and a null (wildcard) second occurrence. -/
theorem struct_dup_name_last_wins_witness :
    jsonFieldToObject (vDict [("type", vStr "struct"),
        ("fields", vDict [("b", vStr "x"), ("b", vNone)])]) =
      .ok (structField (vDict [("b", ignoreField)])) :=
  struct_dup_name_last_wins "b" (vStr "x") vNone (stringField (vStr "x"))
    ignoreField (by simp [jsonFieldToObject]) (by simp [jsonFieldToObject])

/-- C5 counterexample: a run in which the expected side has seen a packet
info and the output side has not (its `current_packet_info` is still the
initial `None`).  Comparing `PacketInfo` with `None` reads
`None.header`, so the whole comparison raises `AttributeError` instead of
returning the false verdict the description promises. -/
theorem compare_one_sided_packet_info_raises :
    compareJsonData
      [vDict [("packet-header", vInt 7), ("packet-context", vInt 8)],
       vDict [("payload", vInt 1)]]
      [vDict [("payload", vInt 1)]] = .error .attributeError := by
  simp [compareJsonData, compareLoop, findNextEvent, jsonThingToObject,
        jsonFieldToObject, dictGet, isPacketInfoObj, pyNe, pyEq]

/-- C5 amended: at each compared event pair the two `current_packet_info`
values are compared with `!=`.  When both are `PacketInfo` records the
comparison is field-by-field over `header` and `context` (short-circuiting
on an unequal header) and an unequal pair makes the verdict false, as the
concrete run in the last conjunct shows; when both are still the initial
`None` the check passes; but when exactly one side is still `None` the
comparison raises `AttributeError` rather than returning false. -/
theorem packet_info_comparison_spec :
    (∀ h c, pyNe (packetInfo h c) vNone = .error .attributeError) ∧
    (∀ h c, pyNe vNone (packetInfo h c) = .error .attributeError) ∧
    (pyNe vNone vNone = .ok false) ∧
    (∀ h1 c1 h2 c2 b1 b2, pyEq h1 h2 = .ok b1 → pyEq c1 c2 = .ok b2 →
        pyEq (packetInfo h1 c1) (packetInfo h2 c2) = .ok (b1 && b2)) ∧
    compareJsonData
      [vDict [("packet-header", vInt 7), ("packet-context", vInt 8)],
       vDict [("payload", vInt 1)]]
      [vDict [("packet-header", vInt 9), ("packet-context", vInt 8)],
       vDict [("payload", vInt 1)]] = .ok false := by
  refine ⟨?_, ?_, by simp [pyNe, pyEq], ?_, ?_⟩
  · intro h c; simp [pyNe, pyEq]
  · intro h c; simp [pyNe, pyEq]
  · intro h1 c1 h2 c2 b1 b2 e1 e2
    cases b1 with
    | false => rw [pyEq, e1]; rfl
    | true => rw [pyEq, e1, e2]; rfl
  · simp [compareJsonData, compareLoop, findNextEvent, jsonThingToObject,
          jsonFieldToObject, dictGet, isPacketInfoObj, pyNe, pyEq, toRat?]

/-- Witness for `packet_info_comparison_spec`: a field-by-field packet-info
comparison, with a wildcard context on one side. -/
theorem packet_info_comparison_spec_witness :
    pyEq (packetInfo (integerField (vInt 7)) ignoreField)
         (packetInfo (integerField (vInt 7)) (integerField (vInt 8))) =
      .ok (true && true) :=
  packet_info_comparison_spec.2.2.2.1 _ _ _ _ true true
    (by simp [pyEq, toRat?]) (by simp [pyEq])

/-- C8: two Array fields are equal exactly when every aligned position of
their element lists (that is, up to the length of the shorter) compares
equal; the tail of the longer array is never inspected, so arrays of
different lengths with an equal overlapping prefix are reported equal. -/
theorem array_eq_prefix_iff (xs ys : List PyObj) :
    pyEq (arrayField (vList xs)) (arrayField (vList ys)) = .ok true ↔
      ∀ p ∈ xs.zip ys, pyEq p.1 p.2 = .ok true := by
  have hred : pyEq (arrayField (vList xs)) (arrayField (vList ys)) = arrCmp xs ys := by
    rw [pyEq]
  rw [hred]
  exact arrCmp_ok_true_iff xs ys

/-- Witness for `array_eq_prefix_iff`: a one-element array equals a
two-element array with the same first element. -/
theorem array_eq_prefix_iff_witness :
    pyEq (arrayField (vList [integerField (vInt 1)]))
         (arrayField (vList [integerField (vInt 1), stringField (vStr "x")])) =
      .ok true :=
  (array_eq_prefix_iff _ _).mpr (by simp [pyEq, toRat?])

/-- C7: two Struct fields (with the unique keys every Python dict has) are
equal exactly when they carry the same set of field names and, for every
name, the paired values compare equal.  The length guard plus the one-sided
iteration implements set equality of the names, so a name present on one
side only makes the structs unequal whichever operand comes first, and the
right-hand side of the equivalence — hence equality itself — is
insensitive to insertion order. -/
theorem struct_eq_iff (xs ys : List (String × PyObj))
    (hx : (xs.map Prod.fst).Nodup) (hy : (ys.map Prod.fst).Nodup) :
    pyEq (structField (vDict xs)) (structField (vDict ys)) = .ok true ↔
      (xs.map Prod.fst ⊆ ys.map Prod.fst ∧ ys.map Prod.fst ⊆ xs.map Prod.fst ∧
       ∀ p ∈ xs, (dictGet ys p.1).map (fun w => pyEq w p.2) = some (.ok true)) := by
  have hred : pyEq (structField (vDict xs)) (structField (vDict ys)) =
      (if xs.length = ys.length then structCmp xs ys else .ok false) := by
    rw [pyEq]
  rw [hred]
  constructor
  · intro h
    by_cases hlen : xs.length = ys.length
    · rw [if_pos hlen] at h
      have hall := (structCmp_ok_true_iff xs ys).mp h
      have hsub : xs.map Prod.fst ⊆ ys.map Prod.fst := by
        intro k hk
        obtain ⟨p, hp, rfl⟩ := List.mem_map.mp hk
        have hmap := hall p hp
        cases hov : dictGet ys p.1 with
        | none => rw [hov] at hmap; simp at hmap
        | some w => exact List.mem_map.mpr ⟨(p.1, w), dictGet_mem hov, rfl⟩
      have hperm : (xs.map Prod.fst).Perm (ys.map Prod.fst) :=
        (hx.subperm hsub).perm_of_length_le (by simp [hlen])
      exact ⟨hsub, fun k hk => hperm.mem_iff.mpr hk, hall⟩
    · rw [if_neg hlen] at h
      exact absurd h (by simp)
  · rintro ⟨hsub1, hsub2, hall⟩
    have h1 := (hx.subperm hsub1).length_le
    have h2 := (hy.subperm hsub2).length_le
    simp only [List.length_map] at h1 h2
    rw [if_pos (by omega)]
    exact (structCmp_ok_true_iff xs ys).mpr hall

/-- Witness for `struct_eq_iff`: the same two bindings in either insertion
order compare equal. -/
theorem struct_eq_iff_witness :
    pyEq (structField (vDict [("a", integerField (vInt 1)),
                              ("b", stringField (vStr "s"))]))
         (structField (vDict [("b", stringField (vStr "s")),
                              ("a", integerField (vInt 1))])) = .ok true :=
  (struct_eq_iff _ _ (by decide) (by decide)).mpr
    (by
      refine ⟨?_, ?_, ?_⟩
      · intro k hk; simp at hk ⊢; tauto
      · intro k hk; simp at hk ⊢; tauto
      · intro p hp
        simp only [List.mem_cons, List.not_mem_nil, or_false] at hp
        rcases hp with rfl | rfl <;> simp [dictGet, pyEq, toRat?])

/-- C9 counterexample: two non-Ignore Struct fields for which the two
argument orders give different results.  Iterating the first struct's keys
meets an Enum-versus-Integer value pair first and raises `AttributeError`;
iterating the second struct's keys meets an unequal Integer pair first and
returns false. -/
theorem field_eq_asymmetric_example :
    pyEq (structField (vDict [("p", integerField (vInt 1)),
                              ("q", integerField (vInt 2))]))
         (structField (vDict [("q", integerField (vInt 3)),
                              ("p", enumField (vStr "e"))])) =
      .error .attributeError ∧
    pyEq (structField (vDict [("q", integerField (vInt 3)),
                              ("p", enumField (vStr "e"))]))
         (structField (vDict [("p", integerField (vInt 1)),
                              ("q", integerField (vInt 2))])) =
      .ok false := by
  constructor <;> simp [pyEq, structCmp, dictGet, toRat?]

/-- Symmetry core for the array loop: if both orders of `arrCmp` return
booleans and the aligned element pairs are pairwise symmetric, the two
booleans agree. -/
theorem arrCmp_symm_core (xs : List PyObj) :
    ∀ (ys : List PyObj),
      (∀ p ∈ xs, ∀ q ∈ ys, ∀ x y : Bool,
          pyEq p q = .ok x → pyEq q p = .ok y → x = y) →
      ∀ {x y : Bool}, arrCmp xs ys = .ok x → arrCmp ys xs = .ok y → x = y := by
  induction xs with
  | nil =>
    intro ys ihp x y hab hba
    have hx : x = true := by rw [arrCmp] at hab; exact (Except.ok.inj hab).symm
    have hy : y = true := by
      cases ys with
      | nil => rw [arrCmp] at hba; exact (Except.ok.inj hba).symm
      | cons b yr => rw [arrCmp] at hba; exact (Except.ok.inj hba).symm
    rw [hx, hy]
  | cons a xr ih =>
    intro ys ihp x y hab hba
    cases ys with
    | nil =>
      have hx : x = true := by rw [arrCmp] at hab; exact (Except.ok.inj hab).symm
      have hy : y = true := by rw [arrCmp] at hba; exact (Except.ok.inj hba).symm
      rw [hx, hy]
    | cons b yr =>
      rw [arrCmp] at hab hba
      cases hfw : pyEq a b with
      | error e => rw [hfw] at hab; exact Except.noConfusion hab
      | ok t =>
        cases hbw : pyEq b a with
        | error e => rw [hbw] at hba; exact Except.noConfusion hba
        | ok s =>
          have hts : t = s :=
            ihp a (List.mem_cons_self _ _) b (List.mem_cons_self _ _) t s hfw hbw
          subst hts
          rw [hfw] at hab
          rw [hbw] at hba
          cases t with
          | false =>
            have hx : x = false := (Except.ok.inj hab).symm
            have hy : y = false := (Except.ok.inj hba).symm
            rw [hx, hy]
          | true =>
            exact ih yr
              (fun p hp q hq => ihp p (List.mem_cons_of_mem _ hp) q (List.mem_cons_of_mem _ hq))
              hab hba

/-- Symmetry core for the elementwise part of raw list equality, in the
same form as `arrCmp_symm_core`. -/
theorem pyListEq_symm_core (xs : List PyObj) :
    ∀ (ys : List PyObj),
      (∀ p ∈ xs, ∀ q ∈ ys, ∀ x y : Bool,
          pyEq p q = .ok x → pyEq q p = .ok y → x = y) →
      ∀ {x y : Bool}, pyListEq xs ys = .ok x → pyListEq ys xs = .ok y → x = y := by
  induction xs with
  | nil =>
    intro ys ihp x y hab hba
    have hx : x = true := by rw [pyListEq] at hab; exact (Except.ok.inj hab).symm
    have hy : y = true := by
      cases ys with
      | nil => rw [pyListEq] at hba; exact (Except.ok.inj hba).symm
      | cons b yr => rw [pyListEq] at hba; exact (Except.ok.inj hba).symm
    rw [hx, hy]
  | cons a xr ih =>
    intro ys ihp x y hab hba
    cases ys with
    | nil =>
      have hx : x = true := by rw [pyListEq] at hab; exact (Except.ok.inj hab).symm
      have hy : y = true := by rw [pyListEq] at hba; exact (Except.ok.inj hba).symm
      rw [hx, hy]
    | cons b yr =>
      rw [pyListEq] at hab hba
      cases hfw : pyEq a b with
      | error e => rw [hfw] at hab; exact Except.noConfusion hab
      | ok t =>
        cases hbw : pyEq b a with
        | error e => rw [hbw] at hba; exact Except.noConfusion hba
        | ok s =>
          have hts : t = s :=
            ihp a (List.mem_cons_self _ _) b (List.mem_cons_self _ _) t s hfw hbw
          subst hts
          rw [hfw] at hab
          rw [hbw] at hba
          cases t with
          | false =>
            have hx : x = false := (Except.ok.inj hab).symm
            have hy : y = false := (Except.ok.inj hba).symm
            rw [hx, hy]
          | true =>
            exact ih yr
              (fun p hp q hq => ihp p (List.mem_cons_of_mem _ hp) q (List.mem_cons_of_mem _ hq))
              hab hba

/-- Symmetry core for the struct loop: with unique keys on both sides,
equal entry counts and pairwise-symmetric value comparisons, a `True`
verdict in one order forces a `True` verdict in the other whenever that
other order returns a boolean at all. -/
theorem structCmp_rev_true {xs ys : List (String × PyObj)}
    (hx : (xs.map Prod.fst).Nodup) (hy : (ys.map Prod.fst).Nodup)
    (hlen : xs.length = ys.length)
    (ihp : ∀ p ∈ xs, ∀ q ∈ ys, ∀ x y : Bool,
        pyEq p.2 q.2 = .ok x → pyEq q.2 p.2 = .ok y → x = y)
    (hab : structCmp xs ys = .ok true) {y : Bool}
    (hba : structCmp ys xs = .ok y) : y = true := by
  cases y with
  | true => rfl
  | false =>
    exfalso
    obtain ⟨q, hq, hcase⟩ := structCmp_ok_false_exists hba
    obtain ⟨qk, qv⟩ := q
    have hall := (structCmp_ok_true_iff xs ys).mp hab
    have hsub : xs.map Prod.fst ⊆ ys.map Prod.fst := by
      intro k hk
      obtain ⟨p, hp, rfl⟩ := List.mem_map.mp hk
      have hmap := hall p hp
      cases hov : dictGet ys p.1 with
      | none => rw [hov] at hmap; simp at hmap
      | some w => exact List.mem_map.mpr ⟨(p.1, w), dictGet_mem hov, rfl⟩
    have hperm : (xs.map Prod.fst).Perm (ys.map Prod.fst) :=
      (hx.subperm hsub).perm_of_length_le (by simp [hlen])
    rcases hcase with hnone | ⟨w, hw, hfalse⟩
    · have hqk : qk ∈ xs.map Prod.fst :=
        hperm.mem_iff.mpr (List.mem_map.mpr ⟨(qk, qv), hq, rfl⟩)
      rw [dictGet_eq_none_iff] at hnone
      exact hnone hqk
    · have hwmem : (qk, w) ∈ xs := dictGet_mem hw
      have hmap := hall (qk, w) hwmem
      have hyq : dictGet ys qk = some qv := dictGet_of_mem_nodup hy hq
      rw [hyq] at hmap
      simp only [Option.map_some] at hmap
      have htrue : pyEq qv w = .ok true := Option.some.inj hmap
      exact Bool.noConfusion (ihp (qk, w) hwmem (qk, qv) hq false true hfalse htrue)

/-- Symmetry core for the per-key part of raw dict equality, in the same
form as `structCmp_rev_true` (the value comparison runs in the opposite
operand order there, which the symmetric hypothesis absorbs). -/
theorem pyDictEq_rev_true {xs ys : List (String × PyObj)}
    (hx : (xs.map Prod.fst).Nodup) (hy : (ys.map Prod.fst).Nodup)
    (hlen : xs.length = ys.length)
    (ihp : ∀ p ∈ xs, ∀ q ∈ ys, ∀ x y : Bool,
        pyEq p.2 q.2 = .ok x → pyEq q.2 p.2 = .ok y → x = y)
    (hab : pyDictEq xs ys = .ok true) {y : Bool}
    (hba : pyDictEq ys xs = .ok y) : y = true := by
  cases y with
  | true => rfl
  | false =>
    exfalso
    obtain ⟨q, hq, hcase⟩ := pyDictEq_ok_false_exists hba
    obtain ⟨qk, qv⟩ := q
    have hall := (pyDictEq_ok_true_iff xs ys).mp hab
    have hsub : xs.map Prod.fst ⊆ ys.map Prod.fst := by
      intro k hk
      obtain ⟨p, hp, rfl⟩ := List.mem_map.mp hk
      have hmap := hall p hp
      cases hov : dictGet ys p.1 with
      | none => rw [hov] at hmap; simp at hmap
      | some w => exact List.mem_map.mpr ⟨(p.1, w), dictGet_mem hov, rfl⟩
    have hperm : (xs.map Prod.fst).Perm (ys.map Prod.fst) :=
      (hx.subperm hsub).perm_of_length_le (by simp [hlen])
    rcases hcase with hnone | ⟨w, hw, hfalse⟩
    · have hqk : qk ∈ xs.map Prod.fst :=
        hperm.mem_iff.mpr (List.mem_map.mpr ⟨(qk, qv), hq, rfl⟩)
      rw [dictGet_eq_none_iff] at hnone
      exact hnone hqk
    · have hwmem : (qk, w) ∈ xs := dictGet_mem hw
      have hmap := hall (qk, w) hwmem
      have hyq : dictGet ys qk = some qv := dictGet_of_mem_nodup hy hq
      rw [hyq] at hmap
      simp only [Option.map_some] at hmap
      have htrue : pyEq w qv = .ok true := Option.some.inj hmap
      exact Bool.noConfusion (ihp (qk, w) hwmem (qk, qv) hq true false htrue hfalse)

/-- Size-indexed symmetry of Python equality on well-formed objects: when
both argument orders return a boolean, the booleans agree (exceptions are
the only source of asymmetry). -/
theorem pyEq_ok_symm :
    ∀ (n : Nat) (a b : PyObj), sizeOf a + sizeOf b ≤ n →
      wfObj a = true → wfObj b = true →
      ∀ (x y : Bool), pyEq a b = .ok x → pyEq b a = .ok y → x = y := by
  intro n
  induction n using Nat.strong_induction_on with
  | _ n ih =>
    intro a b hn wa wb x y hab hba
    cases a <;> cases b
    all_goals try (exfalso
                   revert hab
                   simp [pyEq]
                   done)
    all_goals try (exfalso
                   revert hba
                   simp [pyEq]
                   done)
    all_goals try (simp only [pyEq, toRat?, Except.ok.injEq] at hab hba
                   subst hab
                   subst hba
                   rfl)
    all_goals try (simp only [pyEq, toRat?, Except.ok.injEq] at hab hba
                   subst hab
                   subst hba
                   exact decide_eq_decide.mpr eq_comm)
    all_goals try (rename_i v w
                   simp only [pyEq] at hab hba
                   simp only [wfObj] at wa wb
                   refine ih (sizeOf v + sizeOf w) ?_ v w le_rfl wa wb x y hab hba
                   simp only [PyObj.integerField.sizeOf_spec,
                              PyObj.floatField.sizeOf_spec,
                              PyObj.stringField.sizeOf_spec,
                              PyObj.enumField.sizeOf_spec] at hn
                   omega)
    case vList.vList xs ys =>
      simp only [pyEq] at hab hba
      rw [wfObj_vList_iff] at wa wb
      simp only [PyObj.vList.sizeOf_spec] at hn
      by_cases hlen : xs.length = ys.length
      · rw [if_pos hlen] at hab
        rw [if_pos hlen.symm] at hba
        refine pyListEq_symm_core xs ys ?_ hab hba
        intro p hp q hq x2 y2 e1 e2
        have hsp := sizeOf_lt_of_mem_objList hp
        have hsq := sizeOf_lt_of_mem_objList hq
        exact ih (sizeOf p + sizeOf q) (by omega) p q le_rfl (wa p hp) (wb q hq) x2 y2 e1 e2
      · rw [if_neg hlen] at hab
        rw [if_neg (fun hc => hlen hc.symm)] at hba
        obtain rfl := (Except.ok.inj hab).symm
        obtain rfl := (Except.ok.inj hba).symm
        rfl
    case vDict.vDict xs ys =>
      simp only [pyEq] at hab hba
      obtain ⟨ndx, wax⟩ := wfObj_vDict_iff.mp wa
      obtain ⟨ndy, way⟩ := wfObj_vDict_iff.mp wb
      simp only [PyObj.vDict.sizeOf_spec] at hn
      by_cases hlen : xs.length = ys.length
      · rw [if_pos hlen] at hab
        rw [if_pos hlen.symm] at hba
        have ihp : ∀ p ∈ xs, ∀ q ∈ ys, ∀ x2 y2 : Bool,
            pyEq p.2 q.2 = .ok x2 → pyEq q.2 p.2 = .ok y2 → x2 = y2 := by
          intro p hp q hq x2 y2 e1 e2
          have hsp := sizeOf_snd_lt_of_mem_entries hp
          have hsq := sizeOf_snd_lt_of_mem_entries hq
          exact ih (sizeOf p.2 + sizeOf q.2) (by omega) p.2 q.2 le_rfl
            (wax p hp) (way q hq) x2 y2 e1 e2
        cases x with
        | true => exact (pyDictEq_rev_true ndx ndy hlen ihp hab hba).symm
        | false =>
          cases y with
          | false => rfl
          | true =>
            have hswap : ∀ p ∈ ys, ∀ q ∈ xs, ∀ x2 y2 : Bool,
                pyEq p.2 q.2 = .ok x2 → pyEq q.2 p.2 = .ok y2 → x2 = y2 :=
              fun p hp q hq x2 y2 e1 e2 => (ihp q hq p hp y2 x2 e2 e1).symm
            exact Bool.noConfusion (pyDictEq_rev_true ndy ndx hlen.symm hswap hba hab)
      · rw [if_neg hlen] at hab
        rw [if_neg (fun hc => hlen hc.symm)] at hba
        obtain rfl := (Except.ok.inj hab).symm
        obtain rfl := (Except.ok.inj hba).symm
        rfl
    case arrayField.arrayField e1 e2 =>
      simp only [pyEq.eq_def] at hab
      split at hab
      case _ xs ys =>
        simp only [pyEq.eq_def] at hba
        rw [wfObj.eq_def] at wa wb
        simp only [] at wa wb
        rw [wfObj_vList_iff] at wa wb
        simp only [PyObj.arrayField.sizeOf_spec, PyObj.vList.sizeOf_spec] at hn
        refine arrCmp_symm_core xs ys ?_ hab hba
        intro p hp q hq x2 y2 f1 f2
        have hsp := sizeOf_lt_of_mem_objList hp
        have hsq := sizeOf_lt_of_mem_objList hq
        exact ih (sizeOf p + sizeOf q) (by omega) p q le_rfl (wa p hp) (wb q hq) x2 y2 f1 f2
      case _ =>
        exact Except.noConfusion hab
    case structField.structField f g =>
      rw [wfObj.eq_def] at wa wb
      simp only [Bool.and_eq_true] at wa wb
      obtain ⟨fd, wff⟩ := wa
      obtain ⟨gd, wfg⟩ := wb
      obtain ⟨xs, rfl⟩ : ∃ xs, f = vDict xs := by
        cases f <;> first | exact ⟨_, rfl⟩ | simp at fd
      obtain ⟨ys, rfl⟩ : ∃ ys, g = vDict ys := by
        cases g <;> first | exact ⟨_, rfl⟩ | simp at gd
      simp only [pyEq.eq_def] at hab hba
      obtain ⟨ndx, wax⟩ := wfObj_vDict_iff.mp wff
      obtain ⟨ndy, way⟩ := wfObj_vDict_iff.mp wfg
      simp only [PyObj.structField.sizeOf_spec, PyObj.vDict.sizeOf_spec] at hn
      by_cases hlen : xs.length = ys.length
      · rw [if_pos hlen] at hab
        rw [if_pos hlen.symm] at hba
        have ihp : ∀ p ∈ xs, ∀ q ∈ ys, ∀ x2 y2 : Bool,
            pyEq p.2 q.2 = .ok x2 → pyEq q.2 p.2 = .ok y2 → x2 = y2 := by
          intro p hp q hq x2 y2 e1 e2
          have hsp := sizeOf_snd_lt_of_mem_entries hp
          have hsq := sizeOf_snd_lt_of_mem_entries hq
          exact ih (sizeOf p.2 + sizeOf q.2) (by omega) p.2 q.2 le_rfl
            (wax p hp) (way q hq) x2 y2 e1 e2
        cases x with
        | true => exact (structCmp_rev_true ndx ndy hlen ihp hab hba).symm
        | false =>
          cases y with
          | false => rfl
          | true =>
            have hswap : ∀ p ∈ ys, ∀ q ∈ xs, ∀ x2 y2 : Bool,
                pyEq p.2 q.2 = .ok x2 → pyEq q.2 p.2 = .ok y2 → x2 = y2 :=
              fun p hp q hq x2 y2 e1 e2 => (ihp q hq p hp y2 x2 e2 e1).symm
            exact Bool.noConfusion (structCmp_rev_true ndy ndx hlen.symm hswap hba hab)
      · rw [if_neg hlen] at hab
        rw [if_neg (fun hc => hlen hc.symm)] at hba
        obtain rfl := (Except.ok.inj hab).symm
        obtain rfl := (Except.ok.inj hba).symm
        rfl
    case event.packetInfo h1 sc1 c1 p1 bh bc =>
      rw [pyEq.eq_def] at hab
      simp only [] at hab
      split at hab
      next => exact Except.noConfusion hab
      next => exact Except.noConfusion hab
    case packetInfo.event h1 c1 bh bsc bc bp =>
      rw [pyEq.eq_def] at hba
      simp only [] at hba
      split at hba
      next => exact Except.noConfusion hba
      next => exact Except.noConfusion hba
    case event.event h1 sc1 c1 p1 h2 sc2 c2 p2 =>
      rw [wfObj.eq_def] at wa wb
      simp only [Bool.and_eq_true] at wa wb
      obtain ⟨⟨⟨wh1, wsc1⟩, wc1⟩, wp1⟩ := wa
      obtain ⟨⟨⟨wh2, wsc2⟩, wc2⟩, wp2⟩ := wb
      simp only [PyObj.event.sizeOf_spec] at hn
      rw [pyEq.eq_def] at hab hba
      simp only [] at hab hba
      split at hab
      next => exact Except.noConfusion hab
      next r1 hf1 =>
        split at hab
        next => exact Except.noConfusion hab
        next r2 hf2 =>
          split at hab
          next => exact Except.noConfusion hab
          next r3 hf3 =>
            split at hab
            next => exact Except.noConfusion hab
            next r4 hf4 =>
              split at hba
              next => exact Except.noConfusion hba
              next s1 hb1 =>
                split at hba
                next => exact Except.noConfusion hba
                next s2 hb2 =>
                  split at hba
                  next => exact Except.noConfusion hba
                  next s3 hb3 =>
                    split at hba
                    next => exact Except.noConfusion hba
                    next s4 hb4 =>
                      obtain rfl := (Except.ok.inj hab).symm
                      obtain rfl := (Except.ok.inj hba).symm
                      have q1 : r1 = s1 :=
                        ih (sizeOf h1 + sizeOf h2) (by omega) h1 h2 le_rfl wh1 wh2 _ _ hf1 hb1
                      have q2 : r2 = s2 :=
                        ih (sizeOf sc1 + sizeOf sc2) (by omega) sc1 sc2 le_rfl wsc1 wsc2 _ _ hf2 hb2
                      have q3 : r3 = s3 :=
                        ih (sizeOf c1 + sizeOf c2) (by omega) c1 c2 le_rfl wc1 wc2 _ _ hf3 hb3
                      have q4 : r4 = s4 :=
                        ih (sizeOf p1 + sizeOf p2) (by omega) p1 p2 le_rfl wp1 wp2 _ _ hf4 hb4
                      rw [q1, q2, q3, q4]
    case packetInfo.packetInfo h1 c1 h2 c2 =>
      rw [wfObj.eq_def] at wa wb
      simp only [Bool.and_eq_true] at wa wb
      obtain ⟨wh1, wc1⟩ := wa
      obtain ⟨wh2, wc2⟩ := wb
      simp only [PyObj.packetInfo.sizeOf_spec] at hn
      rw [pyEq.eq_def] at hab hba
      simp only [] at hab hba
      split at hab
      next => exact Except.noConfusion hab
      next hf1 =>
        obtain rfl := (Except.ok.inj hab).symm
        split at hba
        next => exact Except.noConfusion hba
        next hb1 =>
          obtain rfl := (Except.ok.inj hba).symm
          rfl
        next hb1 =>
          exact Bool.noConfusion
            (ih (sizeOf h1 + sizeOf h2) (by omega) h1 h2 le_rfl wh1 wh2 _ _ hf1 hb1)
      next hf1 =>
        split at hba
        next => exact Except.noConfusion hba
        next hb1 =>
          exact Bool.noConfusion
            (ih (sizeOf h1 + sizeOf h2) (by omega) h1 h2 le_rfl wh1 wh2 _ _ hf1 hb1)
        next hb1 =>
          exact ih (sizeOf c1 + sizeOf c2) (by omega) c1 c2 le_rfl wc1 wc2 _ _ hab hba
/-- C9 amended: Field equality is symmetric for every pair of non-Ignore
Fields whenever both argument orders actually return a boolean: then
`equal(a, b)` and `equal(b, a)` agree.  When an exception interrupts one
order the two results can differ (see `field_eq_asymmetric_example`, where
one order returns false and the other raises `AttributeError`). -/
theorem field_eq_symm_of_ok (a b : PyObj)
    (ha : isFieldObj a = true) (hb : isFieldObj b = true)
    (hna : a ≠ ignoreField) (hnb : b ≠ ignoreField)
    (wa : wfObj a = true) (wb : wfObj b = true)
    (x y : Bool) (hab : pyEq a b = .ok x) (hba : pyEq b a = .ok y) : x = y :=
  pyEq_ok_symm (sizeOf a + sizeOf b) a b le_rfl wa wb x y hab hba

/-- Witness for `field_eq_symm_of_ok`: Integer(1) versus Float(1.0) in both
orders. -/
theorem field_eq_symm_of_ok_witness :
    pyEq (integerField (vInt 1)) (floatField (vFloat 1)) = .ok true ∧
    pyEq (floatField (vFloat 1)) (integerField (vInt 1)) = .ok true ∧
    (true : Bool) = true :=
  ⟨by simp [pyEq, toRat?], by simp [pyEq, toRat?],
   field_eq_symm_of_ok (integerField (vInt 1)) (floatField (vFloat 1)) rfl rfl
     (by intro hcon; exact PyObj.noConfusion hcon)
     (by intro hcon; exact PyObj.noConfusion hcon)
     (by simp [wfObj]) (by simp [wfObj]) true true
     (by simp [pyEq, toRat?]) (by simp [pyEq, toRat?])⟩

end DataValidator
